import Mathlib

/-!
Shallow embedding of the multi-armed-bandit framework of
`src/UpperConfidenceBound.py` (classes `Bandit`, `BanditRewardsLog`,
`Agent`, `EpsilonGreedyAgent`, `UCBAgent`, `UCB1Agent`, `UCB1TunedAgent`,
`UCB1NormalAgent`).

Randomness is made explicit: every call that the Python code serves from
`np.random` (the uniform draw in `_choose_bandit`, the index of
`np.random.choice`, the 10 `randn` samples of `Bandit.pull`, the reward a
pull returns) is an explicit argument of the embedded function, so every
theorem quantifies over the whole random stream.  Python floats are
modelled as real numbers; raised exceptions are modelled by `Except`.
-/

/-- Identity of an arm.  The Python code uses `uuid4()`; the ledger keys on
it and never on the parameters, so an opaque natural number is faithful. -/
abbrev ArmId := ℕ

/-- The `Bandit` class: true mean `m`, spread `sigma`, optional truncation
bounds, and the identity assigned at construction. -/
structure Bandit where
  m : ℝ
  sigma : ℝ
  lower_bound : Option ℝ
  upper_bound : Option ℝ
  id : ArmId

/-- Errors the agents can raise.  `noBanditsError` models the
`NoBanditsError` the `bandits` property raises (the spec calls it
`NoArmsBoundError`); `uninitialisedError` models the bare
`Exception('Initialisation step needs to be executed first.')` of
`UCBAgent.take_action` (the spec calls it `UninitializedAgentError`). -/
inductive AgentError where
  | noBanditsError
  | uninitialisedError
  deriving DecidableEq

/-- The `BanditRewardsLog` class.  The `defaultdict` record keyed by
`bandit.id` is flattened into three total functions with default value 0,
exactly the default the `defaultdict` factory supplies.  The reward type is
a parameter so that the same definitions serve the real-valued agents and
concrete rational evaluations. -/
structure BanditRewardsLog (R : Type) where
  total_actions : ℕ
  total_rewards : R
  all_rewards : List R
  record_actions : ArmId → ℕ
  record_reward : ArmId → R
  record_reward_squared : ArmId → R

namespace BanditRewardsLog

/-- The `BanditRewardsLog.__init__` state: all counters zero, empty
history, and the `defaultdict` defaults. -/
def init (R : Type) [CommRing R] : BanditRewardsLog R :=
  { total_actions := 0
    total_rewards := 0
    all_rewards := []
    record_actions := fun _ => 0
    record_reward := fun _ => 0
    record_reward_squared := fun _ => 0 }

/-- The `record_action` method: bump the global counters, append to the
history, and bump the three per-arm aggregates at `bandit.id`. -/
def record_action {R : Type} [CommRing R] (log : BanditRewardsLog R)
    (bandit : Bandit) (reward : R) : BanditRewardsLog R :=
  { total_actions := log.total_actions + 1
    total_rewards := log.total_rewards + reward
    all_rewards := log.all_rewards ++ [reward]
    record_actions := fun i =>
      if i = bandit.id then log.record_actions i + 1 else log.record_actions i
    record_reward := fun i =>
      if i = bandit.id then log.record_reward i + reward else log.record_reward i
    record_reward_squared := fun i =>
      if i = bandit.id then log.record_reward_squared i + reward ^ 2
      else log.record_reward_squared i }

end BanditRewardsLog

/-- The `Agent.bandits` property getter: raises `NoBanditsError` when the
backing field is `None` or the bound list is empty (Python `not
self._bandits` is true in both cases); otherwise returns the list, which
is then known to be non-empty. -/
def banditsGet : Option (List Bandit) →
    Except AgentError { l : List Bandit // l ≠ [] }
  | none => .error .noBanditsError
  | some [] => .error .noBanditsError
  | some (b :: bs) => .ok ⟨b :: bs, by simp⟩

/-- Accumulator loop of `np.argmax`: running maximum value, its (first)
index, and the index of the next element to scan.  A strictly larger
element replaces the running maximum, so ties keep the earliest index. -/
def argmaxAux {α : Type} [LinearOrder α] : α × ℕ → ℕ → List α → α × ℕ
  | acc, _, [] => acc
  | (bv, bi), i, x :: xs =>
      if bv < x then argmaxAux (x, i) (i + 1) xs else argmaxAux (bv, bi) (i + 1) xs

/-- Shallow embedding of `np.argmax`: first index attaining the maximum
(0 on the empty list, which the code never reaches: the `bandits` property
guarantees a non-empty list). -/
def argmaxIdx {α : Type} [LinearOrder α] : List α → ℕ
  | [] => 0
  | x :: xs => (argmaxAux (x, 0) 1 xs).2

theorem argmaxAux_spec {α : Type} [LinearOrder α] (xs : List α) :
    ∀ (bv : α) (bi i : ℕ),
      (argmaxAux (bv, bi) i xs = (bv, bi) ∨
        ∃ k, ∃ hk : k < xs.length, argmaxAux (bv, bi) i xs = (xs.get ⟨k, hk⟩, i + k)) ∧
      bv ≤ (argmaxAux (bv, bi) i xs).1 ∧
      ∀ x ∈ xs, x ≤ (argmaxAux (bv, bi) i xs).1 := by
  induction xs with
  | nil => intro bv bi i; exact ⟨Or.inl rfl, le_refl _, by simp⟩
  | cons x t ih =>
    intro bv bi i
    by_cases hx : bv < x
    · have h := ih x i (i + 1)
      rw [show argmaxAux (bv, bi) i (x :: t) = argmaxAux (x, i) (i + 1) t from by
        simp [argmaxAux, hx]]
      refine ⟨?_, le_of_lt (lt_of_lt_of_le hx h.2.1), ?_⟩
      · rcases h.1 with h1 | ⟨k, hk, hres⟩
        · exact Or.inr ⟨0, by simp, by simpa using h1⟩
        · exact Or.inr ⟨k + 1, by simpa using Nat.succ_lt_succ hk,
            by simpa [Nat.add_assoc, Nat.add_comm 1 k] using hres⟩
      · intro y hy
        rcases List.mem_cons.mp hy with rfl | hyt
        · exact h.2.1
        · exact h.2.2 y hyt
    · have h := ih bv bi (i + 1)
      rw [show argmaxAux (bv, bi) i (x :: t) = argmaxAux (bv, bi) (i + 1) t from by
        simp [argmaxAux, hx]]
      refine ⟨?_, h.2.1, ?_⟩
      · rcases h.1 with h1 | ⟨k, hk, hres⟩
        · exact Or.inl h1
        · exact Or.inr ⟨k + 1, by simpa using Nat.succ_lt_succ hk,
            by simpa [Nat.add_assoc, Nat.add_comm 1 k] using hres⟩
      · intro y hy
        rcases List.mem_cons.mp hy with rfl | hyt
        · exact le_trans (not_lt.mp hx) h.2.1
        · exact h.2.2 y hyt

/-- On a non-empty list, `argmaxIdx` is a valid index and the element there
dominates every element of the list. -/
theorem argmaxIdx_spec {α : Type} [LinearOrder α] (l : List α) (hl : l ≠ []) :
    ∃ hj : argmaxIdx l < l.length,
      ∀ i (hi : i < l.length), l.get ⟨i, hi⟩ ≤ l.get ⟨argmaxIdx l, hj⟩ := by
  match l, hl with
  | x :: t, _ =>
    have h := argmaxAux_spec t x 0 1
    have hval : ∃ hj : (argmaxAux (x, 0) 1 t).2 < (x :: t).length,
        (x :: t).get ⟨(argmaxAux (x, 0) 1 t).2, hj⟩ = (argmaxAux (x, 0) 1 t).1 := by
      rcases h.1 with h1 | ⟨k, hk, hres⟩
      · rw [h1]; exact ⟨Nat.succ_pos _, rfl⟩
      · rw [hres]
        exact ⟨by simp; omega, by simp [Nat.add_comm 1 k]⟩
    rcases hval with ⟨hj, hget⟩
    refine ⟨hj, ?_⟩
    intro i hi
    show (x :: t).get ⟨i, hi⟩ ≤ (x :: t).get ⟨(argmaxAux (x, 0) 1 t).2, hj⟩
    rw [hget]
    match i, hi with
    | 0, _ => exact h.2.1
    | k + 1, hk =>
      exact h.2.2 _ (List.get_mem t k (Nat.lt_of_succ_lt_succ hk))

/-- State of an `EpsilonGreedyAgent`: the owned ledger, the optional bound
arm list (`Agent._bandits`, initially `None`), and the `epsilon`
constructor argument (`None` selects the adaptive default). -/
structure EpsilonGreedyAgent where
  rewards_log : BanditRewardsLog ℝ
  bandits? : Option (List Bandit)
  epsilon : Option ℝ

/-- State of a UCB-family agent (`UCBAgent` subclasses): ledger, optional
bound arm list, and the `initialised` flag. -/
structure UCBAgentState where
  rewards_log : BanditRewardsLog ℝ
  bandits? : Option (List Bandit)
  initialised : Bool

namespace EpsilonGreedyAgent

/-- The `_get_random_bandit` method: `np.random.choice(self.bandits)`.  The
uniform choice is the explicit index `pick`, reduced modulo the list
length; accessing `self.bandits` can raise. -/
noncomputable def _get_random_bandit (s : EpsilonGreedyAgent) (pick : ℕ) :
    Except AgentError Bandit :=
  match banditsGet s.bandits? with
  | .error e => .error e
  | .ok ⟨bs, h⟩ =>
      .ok (bs.get ⟨pick % bs.length, Nat.mod_lt _ (List.length_pos.mpr h)⟩)

/-- Estimates built by `_get_current_best_bandit`: sample mean per arm,
with 0 for an arm that has never been pulled. -/
noncomputable def estimates (log : BanditRewardsLog ℝ) (bs : List Bandit) : List ℝ :=
  bs.map fun bandit =>
    if log.record_actions bandit.id = 0 then 0
    else log.record_reward bandit.id / (log.record_actions bandit.id : ℝ)

/-- The `_get_current_best_bandit` method: `self.bandits[np.argmax(estimates)]`
on an already retrieved non-empty arm list. -/
noncomputable def _get_current_best_bandit (log : BanditRewardsLog ℝ)
    (bs : List Bandit) (h : bs ≠ []) : Bandit :=
  bs.get ⟨argmaxIdx (estimates log bs),
    by
      have := (argmaxIdx_spec (estimates log bs)
        (by simp [estimates, h])).choose_spec
      have hlt := (argmaxIdx_spec (estimates log bs)
        (by simp [estimates, h])).choose
      simpa [estimates] using hlt⟩

/-- The `_choose_bandit` method.  `self.epsilon or 1 / (1 +
total_actions)` is Python boolean coercion: both `None` and `0.0` select
the adaptive fallback.  `p` is the `np.random.uniform(0, 1, 1)` draw and
`pick` the stream behind `np.random.choice`. -/
noncomputable def _choose_bandit (s : EpsilonGreedyAgent) (p : ℝ) (pick : ℕ) :
    Except AgentError Bandit :=
  let epsilon : ℝ :=
    match s.epsilon with
    | none => 1 / (1 + (s.rewards_log.total_actions : ℝ))
    | some e => if e = 0 then 1 / (1 + (s.rewards_log.total_actions : ℝ)) else e
  if p < epsilon then _get_random_bandit s pick
  else
    match banditsGet s.bandits? with
    | .error e => .error e
    | .ok ⟨bs, h⟩ => .ok (_get_current_best_bandit s.rewards_log bs h)

/-- The `take_action` method: choose, pull (the reward the chosen arm
returns is the oracle `pull`), record. -/
noncomputable def take_action (s : EpsilonGreedyAgent) (p : ℝ) (pick : ℕ)
    (pull : Bandit → ℝ) : Except AgentError (ℝ × EpsilonGreedyAgent) :=
  match _choose_bandit s p pick with
  | .error e => .error e
  | .ok current_bandit =>
      .ok (pull current_bandit,
        { s with rewards_log := s.rewards_log.record_action current_bandit (pull current_bandit) })

end EpsilonGreedyAgent

namespace UCB1Agent

/-- The `UCB1Agent.calculate_bandit_index` method:
sample mean + √(2·ln N / n). -/
noncomputable def calculate_bandit_index (log : BanditRewardsLog ℝ)
    (a : ArmId) : ℝ :=
  let sample_mean := log.record_reward a / (log.record_actions a : ℝ)
  let c := Real.sqrt (2 * Real.log (log.total_actions : ℝ) / (log.record_actions a : ℝ))
  sample_mean + c

end UCB1Agent

namespace UCB1TunedAgent

/-- The `UCB1TunedAgent.calculate_bandit_index` method: variance bound
V = Σx²/n − mean² + √(2·ln N / n), index = mean + √(min(V, 1/4)·ln N / n). -/
noncomputable def calculate_bandit_index (log : BanditRewardsLog ℝ)
    (a : ArmId) : ℝ :=
  let n : ℝ := (log.record_actions a : ℝ)
  let sample_mean := log.record_reward a / n
  let variance_bound := log.record_reward_squared a / n - sample_mean ^ 2
    + Real.sqrt (2 * Real.log (log.total_actions : ℝ) / n)
  let c := Real.sqrt (min variance_bound (1 / 4) * Real.log (log.total_actions : ℝ) / n)
  sample_mean + c

end UCB1TunedAgent

namespace UCBAgent

/-- The shared `UCBAgent._get_current_best_bandit`: index of every arm,
then `self.bandits[np.argmax(estimates)]`.  Parameterised by the concrete
`calculate_bandit_index` override. -/
noncomputable def _get_current_best_bandit
    (indexFn : BanditRewardsLog ℝ → ArmId → ℝ) (log : BanditRewardsLog ℝ)
    (bs : List Bandit) (h : bs ≠ []) : Bandit :=
  bs.get ⟨argmaxIdx (bs.map fun b => indexFn log b.id),
    by
      have hlt := (argmaxIdx_spec (bs.map fun b => indexFn log b.id)
        (by simp [h])).choose
      simpa using hlt⟩

/-- The shared `UCBAgent.take_action`: raise unless initialised, then pick
the best-index arm, pull it and record the reward. -/
noncomputable def take_action (indexFn : BanditRewardsLog ℝ → ArmId → ℝ)
    (s : UCBAgentState) (pull : Bandit → ℝ) :
    Except AgentError (ℝ × UCBAgentState) :=
  if s.initialised = false then .error .uninitialisedError
  else
    match banditsGet s.bandits? with
    | .error e => .error e
    | .ok ⟨bs, h⟩ =>
        let current_bandit := _get_current_best_bandit indexFn s.rewards_log bs h
        let reward := pull current_bandit
        .ok (reward,
          { s with rewards_log := s.rewards_log.record_action current_bandit reward })

end UCBAgent

namespace UCB1Agent

/-- The `UCB1Agent.initialise` method: if already initialised, log and
return (state unchanged); otherwise pull every arm once, record the
rewards, and set the flag.  Accessing `self.bandits` can raise. -/
noncomputable def initialise (s : UCBAgentState) (pull : Bandit → ℝ) :
    Except AgentError UCBAgentState :=
  if s.initialised then .ok s
  else
    match banditsGet s.bandits? with
    | .error e => .error e
    | .ok ⟨bs, _⟩ =>
        .ok { s with
          rewards_log := bs.foldl (fun log b => log.record_action b (pull b)) s.rewards_log
          initialised := true }

end UCB1Agent

namespace UCB1TunedAgent

/-- The `UCB1TunedAgent.initialise` method, textually identical to
`UCB1Agent.initialise`: one pull per arm, then set the flag. -/
noncomputable def initialise (s : UCBAgentState) (pull : Bandit → ℝ) :
    Except AgentError UCBAgentState :=
  if s.initialised then .ok s
  else
    match banditsGet s.bandits? with
    | .error e => .error e
    | .ok ⟨bs, _⟩ =>
        .ok { s with
          rewards_log := bs.foldl (fun log b => log.record_action b (pull b)) s.rewards_log
          initialised := true }

end UCB1TunedAgent

namespace UCB1NormalAgent

/-- The `UCB1NormalAgent.initialise` method: two pulls per arm (the inner
`for _ in range(2)` loop), then set the flag.  The two draws of each arm
are the oracles `pull1` and `pull2`. -/
noncomputable def initialise (s : UCBAgentState) (pull1 pull2 : Bandit → ℝ) :
    Except AgentError UCBAgentState :=
  if s.initialised then .ok s
  else
    match banditsGet s.bandits? with
    | .error e => .error e
    | .ok ⟨bs, _⟩ =>
        .ok { s with
          rewards_log := bs.foldl
            (fun log b => (log.record_action b (pull1 b)).record_action b (pull2 b))
            s.rewards_log
          initialised := true }

/-- The `UCB1NormalAgent.calculate_bandit_index` method:
mean + √(16 · sampleVariance · ln(N − 1) / n) with
sampleVariance = (Σx² − n·mean²)/(n − 1). -/
noncomputable def calculate_bandit_index (log : BanditRewardsLog ℝ)
    (a : ArmId) : ℝ :=
  let n : ℝ := (log.record_actions a : ℝ)
  let sample_mean := log.record_reward a / n
  let sample_variance := (log.record_reward_squared a - n * sample_mean ^ 2) / (n - 1)
  sample_mean + Real.sqrt (16 * sample_variance * Real.log ((log.total_actions : ℝ) - 1) / n)

/-- Minimum-sample threshold of `_get_bandit_with_insufficient_data`:
`np.max([3, np.ceil(8 * np.log(total_actions))])`. -/
noncomputable def threshold (log : BanditRewardsLog ℝ) : ℝ :=
  max 3 ((Int.ceil (8 * Real.log (log.total_actions : ℝ)) : ℤ) : ℝ)

/-- Arms whose pull count is below the threshold (the `res` list built by
`_get_bandit_with_insufficient_data`). -/
noncomputable def insufficient (log : BanditRewardsLog ℝ) (bs : List Bandit) :
    List Bandit :=
  bs.filter fun b => decide ((log.record_actions b.id : ℝ) < threshold log)

/-- The `_get_bandit_with_insufficient_data` method: `None` when every arm
meets the threshold, otherwise `np.random.choice(res)` — the explicit
`pick` index reduced modulo the length of `res`. -/
noncomputable def _get_bandit_with_insufficient_data (log : BanditRewardsLog ℝ)
    (bs : List Bandit) (pick : ℕ) : Option Bandit :=
  match insufficient log bs with
  | [] => none
  | x :: xs => some ((x :: xs).get ⟨pick % (x :: xs).length, Nat.mod_lt _ (Nat.succ_pos _)⟩)

/-- The `UCB1NormalAgent.take_action` method: raise unless initialised;
prefer an arm with insufficient data; otherwise the best-index arm; pull
and record. -/
noncomputable def take_action (s : UCBAgentState) (pick : ℕ) (pull : Bandit → ℝ) :
    Except AgentError (ℝ × UCBAgentState) :=
  if s.initialised = false then .error .uninitialisedError
  else
    match banditsGet s.bandits? with
    | .error e => .error e
    | .ok ⟨bs, h⟩ =>
        let current_bandit :=
          match _get_bandit_with_insufficient_data s.rewards_log bs pick with
          | some b => b
          | none => UCBAgent._get_current_best_bandit calculate_bandit_index s.rewards_log bs h
        let reward := pull current_bandit
        .ok (reward,
          { s with rewards_log := s.rewards_log.record_action current_bandit reward })

end UCB1NormalAgent

namespace Bandit

/-- The batch of candidate rewards drawn by `Bandit.pull`:
`self.sigma * np.random.randn(10) + self.m`, the ten standard-normal draws
being the explicit `randn` oracle. -/
noncomputable def candidates (b : Bandit) (randn : Fin 10 → ℝ) : List ℝ :=
  (List.ofFn randn).map fun z => b.sigma * z + b.m

/-- The acceptance mask of `Bandit.pull`: `allowed` starts all-true, is
replaced by `rewards >= lower_bound` when a lower bound is set, and is
conjoined with `rewards <= upper_bound` when an upper bound is set. -/
noncomputable def allowedMask (b : Bandit) (r : ℝ) : Bool :=
  let a := true
  let a := match b.lower_bound with
    | none => a
    | some lb => decide (lb ≤ r)
  let a := match b.upper_bound with
    | none => a
    | some ub => a && decide (r ≤ ub)
  a

/-- The `Bandit.pull` method for the Normal arm:
`possible_rewards[allowed][0]`, the first candidate passing the mask;
`none` models the `IndexError` raised when no candidate passes. -/
noncomputable def pull (b : Bandit) (randn : Fin 10 → ℝ) : Option ℝ :=
  ((b.candidates randn).filter b.allowedMask).head?

end Bandit

namespace BanditRewardsLog

/-- Replays a finite sequence of `record_action(bandit, reward)` calls, in
order, against an arbitrary starting ledger. -/
def replay {R : Type} [CommRing R] (log : BanditRewardsLog R)
    (calls : List (Bandit × R)) : BanditRewardsLog R :=
  calls.foldl (fun l c => l.record_action c.1 c.2) log

/-- Replays a finite sequence of `record_action` calls against the freshly
initialised ledger. -/
def applyCalls {R : Type} [CommRing R] (calls : List (Bandit × R)) :
    BanditRewardsLog R :=
  replay (init R) calls

theorem replay_total_actions {R : Type} [CommRing R]
    (calls : List (Bandit × R)) :
    ∀ log : BanditRewardsLog R,
      (replay log calls).total_actions = log.total_actions + calls.length := by
  induction calls with
  | nil => intro log; simp [replay]
  | cons c cs ih =>
    intro log
    show (replay (log.record_action c.1 c.2) cs).total_actions = _
    rw [ih]
    simp [record_action]
    omega

theorem replay_total_rewards {R : Type} [CommRing R]
    (calls : List (Bandit × R)) :
    ∀ log : BanditRewardsLog R,
      (replay log calls).total_rewards
        = log.total_rewards + (calls.map fun c => c.2).sum := by
  induction calls with
  | nil => intro log; simp [replay]
  | cons c cs ih =>
    intro log
    show (replay (log.record_action c.1 c.2) cs).total_rewards = _
    rw [ih]
    simp [record_action, add_assoc]

theorem replay_record_actions {R : Type} [CommRing R]
    (calls : List (Bandit × R)) (i : ArmId) :
    ∀ log : BanditRewardsLog R,
      (replay log calls).record_actions i
        = log.record_actions i + (calls.filter fun c => decide (c.1.id = i)).length := by
  induction calls with
  | nil => intro log; simp [replay]
  | cons c cs ih =>
    intro log
    show (replay (log.record_action c.1 c.2) cs).record_actions i = _
    rw [ih]
    by_cases h : c.1.id = i
    · simp [record_action, List.filter_cons, h]
      omega
    · simp [record_action, List.filter_cons, h, Ne.symm h]

theorem replay_record_reward {R : Type} [CommRing R]
    (calls : List (Bandit × R)) (i : ArmId) :
    ∀ log : BanditRewardsLog R,
      (replay log calls).record_reward i
        = log.record_reward i
          + ((calls.filter fun c => decide (c.1.id = i)).map fun c => c.2).sum := by
  induction calls with
  | nil => intro log; simp [replay]
  | cons c cs ih =>
    intro log
    show (replay (log.record_action c.1 c.2) cs).record_reward i = _
    rw [ih]
    by_cases h : c.1.id = i
    · simp [record_action, List.filter_cons, h, add_assoc]
    · simp [record_action, List.filter_cons, h, Ne.symm h]

theorem replay_record_reward_squared {R : Type} [CommRing R]
    (calls : List (Bandit × R)) (i : ArmId) :
    ∀ log : BanditRewardsLog R,
      (replay log calls).record_reward_squared i
        = log.record_reward_squared i
          + ((calls.filter fun c => decide (c.1.id = i)).map fun c => c.2 ^ 2).sum := by
  induction calls with
  | nil => intro log; simp [replay]
  | cons c cs ih =>
    intro log
    show (replay (log.record_action c.1 c.2) cs).record_reward_squared i = _
    rw [ih]
    by_cases h : c.1.id = i
    · simp [record_action, List.filter_cons, h, add_assoc]
    · simp [record_action, List.filter_cons, h, Ne.symm h]

end BanditRewardsLog

/-- Decomposes the sum of `f` over a list into per-key group sums, one
group for each key value that occurs in the list. -/
theorem sum_map_eq_sum_groups {α M : Type} [AddCommMonoid M]
    (l : List α) (key : α → ℕ) (f : α → M) :
    (l.map f).sum
      = ∑ i in (l.map key).toFinset,
          ((l.filter fun c => decide (key c = i)).map f).sum := by
  induction l with
  | nil => simp
  | cons a t ih =>
    have hpoint : ∀ i : ℕ,
        (((a :: t).filter fun c => decide (key c = i)).map f).sum
          = (if i = key a then f a else 0)
            + ((t.filter fun c => decide (key c = i)).map f).sum := by
      intro i
      by_cases h : key a = i
      · rw [if_pos h.symm]
        simp [List.filter_cons, h]
      · rw [if_neg (Ne.symm h)]
        simp [List.filter_cons, h]
    by_cases hmem : key a ∈ (t.map key).toFinset
    · have hins : ((a :: t).map key).toFinset = (t.map key).toFinset := by
        simp [List.toFinset_cons, Finset.insert_eq_self.mpr hmem]
      rw [List.map_cons, List.sum_cons, ih, hins,
        Finset.sum_congr rfl (fun i _ => hpoint i), Finset.sum_add_distrib,
        Finset.sum_ite_eq' (t.map key).toFinset (key a) (fun _ => f a)]
      simp [hmem]
    · have hins : ((a :: t).map key).toFinset
          = insert (key a) (t.map key).toFinset := by
        simp [List.toFinset_cons]
      rw [List.map_cons, List.sum_cons, ih, hins,
        Finset.sum_congr rfl (fun i _ => hpoint i), Finset.sum_add_distrib,
        Finset.sum_ite_eq' (insert (key a) (t.map key).toFinset) (key a) (fun _ => f a),
        Finset.sum_insert hmem]
      have hempty : (t.filter fun c => decide (key c = key a)) = [] := by
        apply List.filter_eq_nil_iff.mpr
        intro c hc
        simp only [decide_eq_true_eq]
        intro hkey
        exact hmem (List.mem_toFinset.mpr (List.mem_map.mpr ⟨c, hc, hkey⟩))
      simp [hempty]

/-- Sum of the constant-1 map is the length. -/
theorem sum_map_one {α : Type} (l : List α) :
    (l.map fun _ => (1 : ℕ)).sum = l.length := by
  induction l with
  | nil => rfl
  | cons a t ih => simp [ih, Nat.add_comm]

/-- Reduction of the `bandits` property getter on a bound non-empty list. -/
theorem banditsGet_some {bs : List Bandit} (h : bs ≠ []) :
    banditsGet (some bs) = .ok ⟨bs, h⟩ := by
  match bs, h with
  | b :: t, _ => rfl

/-- Helper: epsilon-greedy `take_action` with no bound arm list fails with
the no-arms error. -/
theorem eg_take_action_unbound (s : EpsilonGreedyAgent) (p : ℝ) (pick : ℕ)
    (pull : Bandit → ℝ) (h : s.bandits? = none) :
    EpsilonGreedyAgent.take_action s p pick pull = .error .noBanditsError := by
  have hrand : EpsilonGreedyAgent._get_random_bandit s pick
      = .error .noBanditsError := by
    simp [EpsilonGreedyAgent._get_random_bandit, h, banditsGet]
  have hchoose : EpsilonGreedyAgent._choose_bandit s p pick
      = .error .noBanditsError := by
    rw [EpsilonGreedyAgent._choose_bandit]
    split
    · exact hrand
    · simp [h, banditsGet]
  rw [EpsilonGreedyAgent.take_action, hchoose]

/-- C5: after any finite sequence of `record_action` calls starting from an
empty ledger, each arm's pull count is the number of calls for that arm,
its reward sum is the sum of the rewards of those calls, its squared-reward
sum is the sum of their squares, the total pull count is the sum of the
per-arm pull counts, and the total reward is the sum of the per-arm reward
sums. -/
theorem c5_ledger_consistency (calls : List (Bandit × ℝ)) :
    (∀ i : ArmId, (BanditRewardsLog.applyCalls calls).record_actions i
        = (calls.filter fun c => decide (c.1.id = i)).length) ∧
    (∀ i : ArmId, (BanditRewardsLog.applyCalls calls).record_reward i
        = ((calls.filter fun c => decide (c.1.id = i)).map fun c => c.2).sum) ∧
    (∀ i : ArmId, (BanditRewardsLog.applyCalls calls).record_reward_squared i
        = ((calls.filter fun c => decide (c.1.id = i)).map fun c => c.2 ^ 2).sum) ∧
    ((BanditRewardsLog.applyCalls calls).total_actions
        = ∑ i in (calls.map fun c => c.1.id).toFinset,
            (BanditRewardsLog.applyCalls calls).record_actions i) ∧
    ((BanditRewardsLog.applyCalls calls).total_rewards
        = ∑ i in (calls.map fun c => c.1.id).toFinset,
            (BanditRewardsLog.applyCalls calls).record_reward i) := by
  have hA : ∀ i : ArmId, (BanditRewardsLog.applyCalls calls).record_actions i
      = (calls.filter fun c => decide (c.1.id = i)).length := by
    intro i
    have h := BanditRewardsLog.replay_record_actions calls i (BanditRewardsLog.init ℝ)
    simpa [BanditRewardsLog.applyCalls, BanditRewardsLog.init] using h
  have hR : ∀ i : ArmId, (BanditRewardsLog.applyCalls calls).record_reward i
      = ((calls.filter fun c => decide (c.1.id = i)).map fun c => c.2).sum := by
    intro i
    have h := BanditRewardsLog.replay_record_reward calls i (BanditRewardsLog.init ℝ)
    simpa [BanditRewardsLog.applyCalls, BanditRewardsLog.init] using h
  have hQ : ∀ i : ArmId, (BanditRewardsLog.applyCalls calls).record_reward_squared i
      = ((calls.filter fun c => decide (c.1.id = i)).map fun c => c.2 ^ 2).sum := by
    intro i
    have h := BanditRewardsLog.replay_record_reward_squared calls i (BanditRewardsLog.init ℝ)
    simpa [BanditRewardsLog.applyCalls, BanditRewardsLog.init] using h
  refine ⟨hA, hR, hQ, ?_, ?_⟩
  · have hT : (BanditRewardsLog.applyCalls calls).total_actions = calls.length := by
      have h := BanditRewardsLog.replay_total_actions calls (BanditRewardsLog.init ℝ)
      simpa [BanditRewardsLog.applyCalls, BanditRewardsLog.init] using h
    have hG := sum_map_eq_sum_groups calls (fun c => c.1.id) (fun _ => (1 : ℕ))
    rw [sum_map_one] at hG
    rw [hT, hG]
    exact Finset.sum_congr rfl fun i _ => by rw [sum_map_one, ← hA i]
  · have hT : (BanditRewardsLog.applyCalls calls).total_rewards
        = (calls.map fun c => c.2).sum := by
      have h := BanditRewardsLog.replay_total_rewards calls (BanditRewardsLog.init ℝ)
      simpa [BanditRewardsLog.applyCalls, BanditRewardsLog.init] using h
    have hG := sum_map_eq_sum_groups calls (fun c => c.1.id) (fun c => c.2)
    rw [hT, hG]
    exact Finset.sum_congr rfl fun i _ => (hR i).symm

/-- C7: calling `take_action` on any of the three UCB-family agents while
the `initialised` flag is false fails with the uninitialised-agent error
(no arm is selected or pulled and no state is produced). -/
theorem c7_uninitialised_take_action (s : UCBAgentState) (pull : Bandit → ℝ)
    (pick : ℕ) (h : s.initialised = false) :
    UCBAgent.take_action UCB1Agent.calculate_bandit_index s pull
        = .error .uninitialisedError ∧
    UCBAgent.take_action UCB1TunedAgent.calculate_bandit_index s pull
        = .error .uninitialisedError ∧
    UCB1NormalAgent.take_action s pick pull = .error .uninitialisedError := by
  refine ⟨?_, ?_, ?_⟩ <;>
    simp [UCBAgent.take_action, UCB1NormalAgent.take_action, h]

/-- Closed instance of `c7_uninitialised_take_action` at a freshly
constructed uninitialised agent. -/
theorem c7_uninitialised_take_action_witness :
    (({ rewards_log := BanditRewardsLog.init ℝ, bandits? := none,
        initialised := false } : UCBAgentState).initialised = false) ∧
    UCBAgent.take_action UCB1Agent.calculate_bandit_index
        { rewards_log := BanditRewardsLog.init ℝ, bandits? := none,
          initialised := false } (fun _ => 0)
      = .error .uninitialisedError :=
  ⟨rfl, (c7_uninitialised_take_action
    { rewards_log := BanditRewardsLog.init ℝ, bandits? := none, initialised := false }
    (fun _ => 0) 0 rfl).1⟩

/-- C8: a freshly constructed `EpsilonGreedyAgent` with no bound arm list
fails with the no-arms error on `take_action`, producing no reward and no
updated ledger. -/
theorem c8_unbound_take_action (s : EpsilonGreedyAgent) (p : ℝ) (pick : ℕ)
    (pull : Bandit → ℝ) (h : s.bandits? = none) :
    EpsilonGreedyAgent.take_action s p pick pull = .error .noBanditsError ∧
    EpsilonGreedyAgent._choose_bandit s p pick = .error .noBanditsError ∧
    EpsilonGreedyAgent._get_random_bandit s pick = .error .noBanditsError := by
  have hrand : EpsilonGreedyAgent._get_random_bandit s pick
      = .error .noBanditsError := by
    simp [EpsilonGreedyAgent._get_random_bandit, h, banditsGet]
  have hchoose : EpsilonGreedyAgent._choose_bandit s p pick
      = .error .noBanditsError := by
    rw [EpsilonGreedyAgent._choose_bandit]
    split
    · exact hrand
    · simp [h, banditsGet]
  refine ⟨?_, hchoose, hrand⟩
  rw [EpsilonGreedyAgent.take_action, hchoose]

/-- Closed instance of `c8_unbound_take_action` at a freshly constructed
agent. -/
theorem c8_unbound_take_action_witness :
    (({ rewards_log := BanditRewardsLog.init ℝ, bandits? := none,
        epsilon := none } : EpsilonGreedyAgent).bandits? = none) ∧
    EpsilonGreedyAgent.take_action
        { rewards_log := BanditRewardsLog.init ℝ, bandits? := none, epsilon := none }
        (1 / 2) 0 (fun _ => 0)
      = .error .noBanditsError :=
  ⟨rfl, (c8_unbound_take_action
    { rewards_log := BanditRewardsLog.init ℝ, bandits? := none, epsilon := none }
    (1 / 2) 0 (fun _ => 0) rfl).1⟩

/-- C10: binding the empty arm list is indistinguishable from never
binding: the `bandits` getter raises the same no-arms error, and
`take_action` on an epsilon-greedy agent bound to `[]` behaves exactly as
on the unbound agent. -/
theorem c10_empty_bind_like_unbound (s : EpsilonGreedyAgent) (p : ℝ)
    (pick : ℕ) (pull : Bandit → ℝ) (h : s.bandits? = some []) :
    banditsGet s.bandits? = .error .noBanditsError ∧
    banditsGet s.bandits? = banditsGet none ∧
    EpsilonGreedyAgent.take_action s p pick pull = .error .noBanditsError ∧
    EpsilonGreedyAgent.take_action s p pick pull
      = EpsilonGreedyAgent.take_action { s with bandits? := none } p pick pull := by
  have hget : banditsGet s.bandits? = .error .noBanditsError := by
    rw [h]; rfl
  have hrand : EpsilonGreedyAgent._get_random_bandit s pick
      = .error .noBanditsError := by
    simp [EpsilonGreedyAgent._get_random_bandit, h, banditsGet]
  have hchoose : EpsilonGreedyAgent._choose_bandit s p pick
      = .error .noBanditsError := by
    rw [EpsilonGreedyAgent._choose_bandit]
    split
    · exact hrand
    · simp [h, banditsGet]
  have hta : EpsilonGreedyAgent.take_action s p pick pull
      = .error .noBanditsError := by
    rw [EpsilonGreedyAgent.take_action, hchoose]
  refine ⟨hget, by rw [hget]; rfl, hta, ?_⟩
  rw [hta]
  exact (eg_take_action_unbound { s with bandits? := none } p pick pull rfl).symm

/-- Closed instance of `c10_empty_bind_like_unbound` at an agent bound to
the empty list. -/
theorem c10_empty_bind_like_unbound_witness :
    (({ rewards_log := BanditRewardsLog.init ℝ, bandits? := some [],
        epsilon := some (1 / 2) } : EpsilonGreedyAgent).bandits? = some []) ∧
    EpsilonGreedyAgent.take_action
        { rewards_log := BanditRewardsLog.init ℝ, bandits? := some [],
          epsilon := some (1 / 2) } (1 / 4) 0 (fun _ => 0)
      = .error .noBanditsError :=
  ⟨rfl, (c10_empty_bind_like_unbound
    { rewards_log := BanditRewardsLog.init ℝ, bandits? := some [],
      epsilon := some (1 / 2) } (1 / 4) 0 (fun _ => 0) rfl).2.2.1⟩

/-- C2: for a UCB1 ledger with total pulls `N ≥ 1` and an arm with pull
count `n ≥ 1` and reward sum `S`, the confidence index is
`S/n + √(2·ln N / n)`; in particular with `N = 4`, `n = 2`, `S = 3` it is
`1.5 + √(2·ln 4 / 2)`. -/
theorem c2_ucb1_index (log : BanditRewardsLog ℝ) (a : ArmId) (N n : ℕ)
    (S : ℝ) (hN : log.total_actions = N) (hn : log.record_actions a = n)
    (hS : log.record_reward a = S) (hN1 : 1 ≤ N) (hn1 : 1 ≤ n) :
    UCB1Agent.calculate_bandit_index log a
        = S / (n : ℝ) + Real.sqrt (2 * Real.log (N : ℝ) / (n : ℝ)) ∧
    (N = 4 → n = 2 → S = 3 →
      UCB1Agent.calculate_bandit_index log a
        = 3 / 2 + Real.sqrt (2 * Real.log 4 / 2)) := by
  constructor
  · simp [UCB1Agent.calculate_bandit_index, hN, hn, hS]
  · rintro rfl rfl rfl
    norm_num [UCB1Agent.calculate_bandit_index, hN, hn, hS]

/-- Ledger reaching the C2 state: arm 0 pulled twice with rewards 1 and 2,
arm 1 pulled twice with reward 3/2 each, so N = 4 and arm 0 has n = 2,
S = 3. -/
noncomputable def c2Log : BanditRewardsLog ℝ :=
  BanditRewardsLog.applyCalls
    [(⟨0, 1, none, none, 0⟩, 1), (⟨0, 1, none, none, 0⟩, 2),
     (⟨0, 1, none, none, 1⟩, 3 / 2), (⟨0, 1, none, none, 1⟩, 3 / 2)]

/-- Closed instance of `c2_ucb1_index` on the concrete ledger `c2Log`. -/
theorem c2_ucb1_index_witness :
    c2Log.total_actions = 4 ∧ c2Log.record_actions 0 = 2 ∧
    c2Log.record_reward 0 = 3 ∧
    UCB1Agent.calculate_bandit_index c2Log 0
      = 3 / 2 + Real.sqrt (2 * Real.log 4 / 2) := by
  have hN : c2Log.total_actions = 4 := by
    simp [c2Log, BanditRewardsLog.applyCalls, BanditRewardsLog.replay,
      BanditRewardsLog.record_action, BanditRewardsLog.init]
  have hn : c2Log.record_actions 0 = 2 := by
    simp [c2Log, BanditRewardsLog.applyCalls, BanditRewardsLog.replay,
      BanditRewardsLog.record_action, BanditRewardsLog.init]
  have hS : c2Log.record_reward 0 = 3 := by
    norm_num [c2Log, BanditRewardsLog.applyCalls, BanditRewardsLog.replay,
      BanditRewardsLog.record_action, BanditRewardsLog.init]
  exact ⟨hN, hn, hS,
    (c2_ucb1_index c2Log 0 4 2 3 hN hn hS (by norm_num) (by norm_num)).2
      rfl rfl rfl⟩

/-- C4: for a UCB1-Tuned ledger with total pulls `N ≥ 1` and an arm with
pull count `n ≥ 1`, reward sum `S` and squared-reward sum `Q`, the index is
`S/n + √(min(V, 1/4)·ln N / n)` with `V = (Q/n − (S/n)²) + √(2·ln N / n)`. -/
theorem c4_ucb1tuned_index (log : BanditRewardsLog ℝ) (a : ArmId) (N n : ℕ)
    (S Q : ℝ) (hN : log.total_actions = N) (hn : log.record_actions a = n)
    (hS : log.record_reward a = S) (hQ : log.record_reward_squared a = Q)
    (hN1 : 1 ≤ N) (hn1 : 1 ≤ n) :
    UCB1TunedAgent.calculate_bandit_index log a
      = S / (n : ℝ)
        + Real.sqrt
            (min ((Q / (n : ℝ) - (S / (n : ℝ)) ^ 2)
                + Real.sqrt (2 * Real.log (N : ℝ) / (n : ℝ))) (1 / 4)
              * Real.log (N : ℝ) / (n : ℝ)) := by
  simp [UCB1TunedAgent.calculate_bandit_index, hN, hn, hS, hQ]

/-- Closed instance of `c4_ucb1tuned_index` on the concrete ledger `c2Log`
(arm 1: n = 2, S = 3, Q = 9/2). -/
theorem c4_ucb1tuned_index_witness :
    c2Log.record_actions 1 = 2 ∧ c2Log.record_reward_squared 1 = 9 / 2 ∧
    UCB1TunedAgent.calculate_bandit_index c2Log 1
      = 3 / (2 : ℝ)
        + Real.sqrt
            (min (((9 / 2) / (2 : ℝ) - (3 / (2 : ℝ)) ^ 2)
                + Real.sqrt (2 * Real.log ((4 : ℕ) : ℝ) / (2 : ℝ))) (1 / 4)
              * Real.log ((4 : ℕ) : ℝ) / (2 : ℝ)) := by
  have hN : c2Log.total_actions = 4 := by
    simp [c2Log, BanditRewardsLog.applyCalls, BanditRewardsLog.replay,
      BanditRewardsLog.record_action, BanditRewardsLog.init]
  have hn : c2Log.record_actions 1 = 2 := by
    simp [c2Log, BanditRewardsLog.applyCalls, BanditRewardsLog.replay,
      BanditRewardsLog.record_action, BanditRewardsLog.init]
  have hS : c2Log.record_reward 1 = 3 := by
    norm_num [c2Log, BanditRewardsLog.applyCalls, BanditRewardsLog.replay,
      BanditRewardsLog.record_action, BanditRewardsLog.init]
  have hQ : c2Log.record_reward_squared 1 = 9 / 2 := by
    norm_num [c2Log, BanditRewardsLog.applyCalls, BanditRewardsLog.replay,
      BanditRewardsLog.record_action, BanditRewardsLog.init]
  have h := c4_ucb1tuned_index c2Log 1 4 2 3 (9 / 2) hN hn hS hQ
    (by norm_num) (by norm_num)
  refine ⟨hn, hQ, ?_⟩
  rw [h]
  norm_num

/-- Per-arm pull count after the single-pull initialisation fold. -/
theorem fold1_record_actions (bs : List Bandit) (f : Bandit → ℝ) (i : ArmId) :
    ∀ log : BanditRewardsLog ℝ,
      (bs.foldl (fun l b => l.record_action b (f b)) log).record_actions i
        = log.record_actions i + (bs.filter fun x => decide (x.id = i)).length := by
  induction bs with
  | nil => intro log; simp
  | cons c t ih =>
    intro log
    show (t.foldl _ (log.record_action c (f c))).record_actions i = _
    rw [ih]
    by_cases h : c.id = i
    · simp [BanditRewardsLog.record_action, List.filter_cons, h]
      omega
    · simp [BanditRewardsLog.record_action, List.filter_cons, h, Ne.symm h]

/-- Per-arm pull count after the double-pull initialisation fold of the
UCB1-Normal agent. -/
theorem fold2_record_actions (bs : List Bandit) (f g : Bandit → ℝ) (i : ArmId) :
    ∀ log : BanditRewardsLog ℝ,
      (bs.foldl (fun l b => (l.record_action b (f b)).record_action b (g b))
          log).record_actions i
        = log.record_actions i
          + 2 * (bs.filter fun x => decide (x.id = i)).length := by
  induction bs with
  | nil => intro log; simp
  | cons c t ih =>
    intro log
    show (t.foldl _ ((log.record_action c (f c)).record_action c (g c))).record_actions i = _
    rw [ih]
    by_cases h : c.id = i
    · simp [BanditRewardsLog.record_action, List.filter_cons, h]
      omega
    · simp [BanditRewardsLog.record_action, List.filter_cons, h, Ne.symm h]

/-- In an arm list with pairwise distinct identities, exactly one element
carries the identity of a member. -/
theorem filter_id_singleton {bs : List Bandit}
    (hnd : (bs.map Bandit.id).Nodup) {b : Bandit} (hb : b ∈ bs) :
    (bs.filter fun x => decide (x.id = b.id)).length = 1 := by
  induction bs with
  | nil => cases hb
  | cons c t ih =>
    rw [List.map_cons, List.nodup_cons] at hnd
    rcases List.mem_cons.mp hb with rfl | hbt
    · have hzero : (t.filter fun x => decide (x.id = b.id)) = [] := by
        apply List.filter_eq_nil_iff.mpr
        intro x hx
        simp only [decide_eq_true_eq]
        intro hxid
        exact hnd.1 (List.mem_map.mpr ⟨x, hx, hxid⟩)
      simp [List.filter_cons, hzero]
    · have hne : c.id ≠ b.id := by
        intro hcb
        exact hnd.1 (hcb ▸ List.mem_map.mpr ⟨b, hbt, rfl⟩)
      simp [List.filter_cons, hne, ih hnd.2 hbt]

/-- C6: on an agent bound to a non-empty list of arms with pairwise
distinct identities, an empty ledger and the flag down, one `initialise`
pulls every arm exactly once for UCB1 (twice for UCB1-Normal) and raises
the flag; a second `initialise` call returns the state completely
unchanged (idempotent, not an error). -/
theorem c6_initialise_idempotent (s : UCBAgentState) (bs : List Bandit)
    (pull pull1 pull2 pullAgain : Bandit → ℝ)
    (hb : s.bandits? = some bs) (hne : bs ≠ [])
    (hnd : (bs.map Bandit.id).Nodup)
    (hlog : s.rewards_log = BanditRewardsLog.init ℝ)
    (hinit : s.initialised = false) :
    (∃ s1, UCB1Agent.initialise s pull = .ok s1 ∧
      s1.initialised = true ∧
      (∀ b ∈ bs, s1.rewards_log.record_actions b.id = 1) ∧
      UCB1Agent.initialise s1 pullAgain = .ok s1) ∧
    (∃ s2, UCB1NormalAgent.initialise s pull1 pull2 = .ok s2 ∧
      s2.initialised = true ∧
      (∀ b ∈ bs, s2.rewards_log.record_actions b.id = 2) ∧
      UCB1NormalAgent.initialise s2 pullAgain pullAgain = .ok s2) := by
  constructor
  · refine ⟨{ s with
      rewards_log := bs.foldl (fun log b => log.record_action b (pull b)) s.rewards_log
      initialised := true }, ?_, rfl, ?_, ?_⟩
    · rw [UCB1Agent.initialise, if_neg (by simp [hinit]), hb, banditsGet_some hne]
    · intro b hbmem
      show (bs.foldl (fun log b => log.record_action b (pull b))
          s.rewards_log).record_actions b.id = 1
      rw [fold1_record_actions, hlog]
      simp [BanditRewardsLog.init, filter_id_singleton hnd hbmem]
    · rw [UCB1Agent.initialise, if_pos rfl]
  · refine ⟨{ s with
      rewards_log := bs.foldl
        (fun log b => (log.record_action b (pull1 b)).record_action b (pull2 b))
        s.rewards_log
      initialised := true }, ?_, rfl, ?_, ?_⟩
    · rw [UCB1NormalAgent.initialise, if_neg (by simp [hinit]), hb, banditsGet_some hne]
    · intro b hbmem
      show (bs.foldl
          (fun log b => (log.record_action b (pull1 b)).record_action b (pull2 b))
          s.rewards_log).record_actions b.id = 2
      rw [fold2_record_actions, hlog]
      simp [BanditRewardsLog.init, filter_id_singleton hnd hbmem]
    · rw [UCB1NormalAgent.initialise, if_pos rfl]

/-- Closed instance of `c6_initialise_idempotent` on two freshly
constructed arms. -/
theorem c6_initialise_idempotent_witness :
    (({ rewards_log := BanditRewardsLog.init ℝ,
        bandits? := some [⟨0, 1, none, none, 0⟩, ⟨0, 1, none, none, 1⟩],
        initialised := false } : UCBAgentState).bandits?
      = some [⟨0, 1, none, none, 0⟩, ⟨0, 1, none, none, 1⟩]) ∧
    ([(⟨0, 1, none, none, 0⟩ : Bandit), ⟨0, 1, none, none, 1⟩] ≠ []) ∧
    (([(⟨0, 1, none, none, 0⟩ : Bandit), ⟨0, 1, none, none, 1⟩].map
        Bandit.id).Nodup) ∧
    (∃ s1, UCB1Agent.initialise
        { rewards_log := BanditRewardsLog.init ℝ,
          bandits? := some [⟨0, 1, none, none, 0⟩, ⟨0, 1, none, none, 1⟩],
          initialised := false } (fun _ => 0) = .ok s1 ∧
      s1.initialised = true ∧
      (∀ b ∈ [(⟨0, 1, none, none, 0⟩ : Bandit), ⟨0, 1, none, none, 1⟩],
        s1.rewards_log.record_actions b.id = 1) ∧
      UCB1Agent.initialise s1 (fun _ => 0) = .ok s1) := by
  have h := c6_initialise_idempotent
    { rewards_log := BanditRewardsLog.init ℝ,
      bandits? := some [⟨0, 1, none, none, 0⟩, ⟨0, 1, none, none, 1⟩],
      initialised := false }
    [⟨0, 1, none, none, 0⟩, ⟨0, 1, none, none, 1⟩]
    (fun _ => 0) (fun _ => 0) (fun _ => 0) (fun _ => 0)
    rfl (by simp) (by simp) rfl rfl
  exact ⟨rfl, by simp, by simp, h.1⟩

/-- When `_get_bandit_with_insufficient_data` returns an arm, that arm is
one of the under-sampled arms. -/
theorem insufficient_some_mem {log : BanditRewardsLog ℝ} {bs : List Bandit}
    {pick : ℕ} {b : Bandit}
    (h : UCB1NormalAgent._get_bandit_with_insufficient_data log bs pick = some b) :
    b ∈ UCB1NormalAgent.insufficient log bs := by
  rw [UCB1NormalAgent._get_bandit_with_insufficient_data] at h
  split at h
  · exact absurd h (by simp)
  · rename_i x xs heq
    rw [Option.some_inj] at h
    rw [heq, ← h]
    exact List.get_mem _ _ _

/-- When `_get_bandit_with_insufficient_data` returns `None`, no arm is
under-sampled. -/
theorem insufficient_none_empty {log : BanditRewardsLog ℝ} {bs : List Bandit}
    {pick : ℕ}
    (h : UCB1NormalAgent._get_bandit_with_insufficient_data log bs pick = none) :
    UCB1NormalAgent.insufficient log bs = [] := by
  rw [UCB1NormalAgent._get_bandit_with_insufficient_data] at h
  split at h
  · assumption
  · exact absurd h (by simp)

/-- Membership in the under-sampled list is exactly membership in the arm
list together with a pull count below `max(3, ⌈8·ln N⌉)`. -/
theorem mem_insufficient_iff (log : BanditRewardsLog ℝ) (bs : List Bandit)
    (b : Bandit) :
    b ∈ UCB1NormalAgent.insufficient log bs ↔
      b ∈ bs ∧ (log.record_actions b.id : ℝ)
        < max 3 ((⌈(8 : ℝ) * Real.log (log.total_actions : ℝ)⌉ : ℤ) : ℝ) := by
  simp [UCB1NormalAgent.insufficient, UCB1NormalAgent.threshold, List.mem_filter]

/-- The arm `UCBAgent._get_current_best_bandit` returns is in the list and
its index dominates the index of every arm of the list. -/
theorem best_bandit_spec (indexFn : BanditRewardsLog ℝ → ArmId → ℝ)
    (log : BanditRewardsLog ℝ) (bs : List Bandit) (h : bs ≠ []) :
    UCBAgent._get_current_best_bandit indexFn log bs h ∈ bs ∧
    ∀ b ∈ bs, indexFn log b.id
      ≤ indexFn log (UCBAgent._get_current_best_bandit indexFn log bs h).id := by
  have hspec := argmaxIdx_spec (bs.map fun b => indexFn log b.id) (by simp [h])
  rcases hspec with ⟨hj, hmax⟩
  constructor
  · exact List.get_mem _ _ _
  · intro b hb
    rcases List.mem_iff_get.mp hb with ⟨i, hi⟩
    have hlen : (i : ℕ) < (bs.map fun b => indexFn log b.id).length := by
      simpa using i.isLt
    have := hmax i hlen
    rw [List.get_map] at this
    rw [hi] at this
    refine le_trans this (le_of_eq ?_)
    show (bs.map fun b => indexFn log b.id).get _ = _
    rw [List.get_map]
    rfl

/-- C3: an initialised UCB1-Normal agent first looks for an arm whose pull
count is below `max(3, ⌈8·ln N⌉)`; when one exists the pulled arm is such
an arm, and only when every arm meets the threshold does it pull the arm
maximising the index `mean + √(16·sampleVariance·ln(N−1)/n)` with
`sampleVariance = (Σx² − n·mean²)/(n−1)`; in either case the pulled reward
is recorded. -/
theorem c3_ucb1normal_take_action (s : UCBAgentState) (bs : List Bandit)
    (pick : ℕ) (pull : Bandit → ℝ)
    (hinit : s.initialised = true) (hb : s.bandits? = some bs)
    (hne : bs ≠ []) :
    ∃ chosen : Bandit,
      UCB1NormalAgent.take_action s pick pull
        = .ok (pull chosen,
            { s with rewards_log := s.rewards_log.record_action chosen (pull chosen) }) ∧
      chosen ∈ bs ∧
      ((∃ b ∈ bs, (s.rewards_log.record_actions b.id : ℝ)
          < max 3 ((⌈(8 : ℝ) * Real.log (s.rewards_log.total_actions : ℝ)⌉ : ℤ) : ℝ)) →
        (s.rewards_log.record_actions chosen.id : ℝ)
          < max 3 ((⌈(8 : ℝ) * Real.log (s.rewards_log.total_actions : ℝ)⌉ : ℤ) : ℝ)) ∧
      ((∀ b ∈ bs, ¬ ((s.rewards_log.record_actions b.id : ℝ)
          < max 3 ((⌈(8 : ℝ) * Real.log (s.rewards_log.total_actions : ℝ)⌉ : ℤ) : ℝ))) →
        ∀ b ∈ bs, UCB1NormalAgent.calculate_bandit_index s.rewards_log b.id
          ≤ UCB1NormalAgent.calculate_bandit_index s.rewards_log chosen.id) ∧
      (∀ a : ArmId,
        UCB1NormalAgent.calculate_bandit_index s.rewards_log a
          = s.rewards_log.record_reward a / (s.rewards_log.record_actions a : ℝ)
            + Real.sqrt (16 * ((s.rewards_log.record_reward_squared a
                - (s.rewards_log.record_actions a : ℝ)
                  * (s.rewards_log.record_reward a
                      / (s.rewards_log.record_actions a : ℝ)) ^ 2)
                / ((s.rewards_log.record_actions a : ℝ) - 1))
              * Real.log ((s.rewards_log.total_actions : ℝ) - 1)
              / (s.rewards_log.record_actions a : ℝ))) := by
  have hformula : ∀ a : ArmId,
      UCB1NormalAgent.calculate_bandit_index s.rewards_log a
        = s.rewards_log.record_reward a / (s.rewards_log.record_actions a : ℝ)
          + Real.sqrt (16 * ((s.rewards_log.record_reward_squared a
              - (s.rewards_log.record_actions a : ℝ)
                * (s.rewards_log.record_reward a
                    / (s.rewards_log.record_actions a : ℝ)) ^ 2)
              / ((s.rewards_log.record_actions a : ℝ) - 1))
            * Real.log ((s.rewards_log.total_actions : ℝ) - 1)
            / (s.rewards_log.record_actions a : ℝ)) := fun a => rfl
  rcases hc : UCB1NormalAgent._get_bandit_with_insufficient_data s.rewards_log bs pick
    with _ | b
  · -- every arm meets the threshold: the best-index arm is pulled
    have hempty := insufficient_none_empty hc
    refine ⟨UCBAgent._get_current_best_bandit
      UCB1NormalAgent.calculate_bandit_index s.rewards_log bs hne, ?_, ?_, ?_, ?_, hformula⟩
    · rw [UCB1NormalAgent.take_action, if_neg (by simp [hinit]), hb, banditsGet_some hne]
      simp only [hc]
    · exact (best_bandit_spec _ _ _ _).1
    · rintro ⟨b, hbmem, hblt⟩
      have hmem : b ∈ UCB1NormalAgent.insufficient s.rewards_log bs :=
        (mem_insufficient_iff _ _ _).mpr ⟨hbmem, hblt⟩
      rw [hempty] at hmem
      cases hmem
    · intro _
      exact (best_bandit_spec _ _ _ _).2
  · -- an under-sampled arm exists and is pulled
    have hmem := insufficient_some_mem hc
    have hmem2 := (mem_insufficient_iff _ _ _).mp hmem
    refine ⟨b, ?_, hmem2.1, fun _ => hmem2.2, ?_, hformula⟩
    · rw [UCB1NormalAgent.take_action, if_neg (by simp [hinit]), hb, banditsGet_some hne]
      simp only [hc]
    · intro hall
      exact absurd hmem2.2 (hall b hmem2.1)

/-- Closed instance of `c3_ucb1normal_take_action` on a single freshly
initialised arm. -/
theorem c3_ucb1normal_take_action_witness :
    (({ rewards_log := BanditRewardsLog.init ℝ,
        bandits? := some [⟨0, 1, none, none, 0⟩],
        initialised := true } : UCBAgentState).initialised = true) ∧
    ∃ chosen : Bandit,
      UCB1NormalAgent.take_action
          { rewards_log := BanditRewardsLog.init ℝ,
            bandits? := some [⟨0, 1, none, none, 0⟩], initialised := true }
          0 (fun _ => 0)
        = .ok (0,
            { rewards_log := (BanditRewardsLog.init ℝ).record_action chosen 0,
              bandits? := some [⟨0, 1, none, none, 0⟩], initialised := true }) ∧
      chosen ∈ [(⟨0, 1, none, none, 0⟩ : Bandit)] := by
  have h := c3_ucb1normal_take_action
    { rewards_log := BanditRewardsLog.init ℝ,
      bandits? := some [⟨0, 1, none, none, 0⟩], initialised := true }
    [⟨0, 1, none, none, 0⟩] 0 (fun _ => 0) rfl rfl (by simp)
  rcases h with ⟨chosen, heq, hmem, _⟩
  exact ⟨rfl, chosen, heq, hmem⟩

/-- C9: for a Normal arm with both truncation bounds set, `pull` draws a
batch of exactly 10 candidates and returns the first candidate inside
`[lower_bound, upper_bound]`; the extraction succeeds whenever at least one
candidate is in range, and fails (no value) when none is. -/
theorem c9_truncated_pull (b : Bandit) (randn : Fin 10 → ℝ) (lb ub : ℝ)
    (hlb : b.lower_bound = some lb) (hub : b.upper_bound = some ub) :
    (b.candidates randn).length = 10 ∧
    b.pull randn
      = ((b.candidates randn).filter fun r => decide (lb ≤ r) && decide (r ≤ ub)).head? ∧
    ((∃ r ∈ b.candidates randn, lb ≤ r ∧ r ≤ ub) →
      ∃ v, b.pull randn = some v ∧ v ∈ b.candidates randn ∧ lb ≤ v ∧ v ≤ ub) ∧
    ((∀ r ∈ b.candidates randn, ¬ (lb ≤ r ∧ r ≤ ub)) → b.pull randn = none) := by
  have hmask : b.allowedMask = fun r => decide (lb ≤ r) && decide (r ≤ ub) := by
    funext r
    simp [Bandit.allowedMask, hlb, hub]
  have hlen : (b.candidates randn).length = 10 := by simp [Bandit.candidates]
  have hpull : b.pull randn
      = ((b.candidates randn).filter fun r => decide (lb ≤ r) && decide (r ≤ ub)).head? := by
    rw [Bandit.pull, hmask]
  refine ⟨hlen, hpull, ?_, ?_⟩
  · rintro ⟨r, hr, hrlb, hrub⟩
    have hrf : r ∈ (b.candidates randn).filter
        fun x => decide (lb ≤ x) && decide (x ≤ ub) :=
      List.mem_filter.mpr ⟨hr, by simp [hrlb, hrub]⟩
    rcases hfl : (b.candidates randn).filter fun x => decide (lb ≤ x) && decide (x ≤ ub)
      with _ | ⟨v, tl⟩
    · rw [hfl] at hrf; cases hrf
    · refine ⟨v, ?_, ?_⟩
      · rw [hpull, hfl]; rfl
      · have hv : v ∈ (b.candidates randn).filter
            fun x => decide (lb ≤ x) && decide (x ≤ ub) := by
          rw [hfl]; exact List.mem_cons_self _ _
        have h2 := List.mem_filter.mp hv
        have h3 : lb ≤ v ∧ v ≤ ub := by simpa using h2.2
        exact ⟨h2.1, h3.1, h3.2⟩
  · intro hall
    have hfl : ((b.candidates randn).filter
        fun x => decide (lb ≤ x) && decide (x ≤ ub)) = [] := by
      apply List.filter_eq_nil_iff.mpr
      intro x hx
      have hnx := hall x hx
      simp only [Bool.and_eq_true, decide_eq_true_eq]
      tauto
    rw [hpull, hfl]
    rfl

/-- Closed instance of `c9_truncated_pull`: unit-spread arm at mean 0
truncated to `[-1, 1]`, all ten draws at 0. -/
theorem c9_truncated_pull_witness :
    ((⟨0, 1, some (-1), some 1, 0⟩ : Bandit).lower_bound = some (-1)) ∧
    ((⟨0, 1, some (-1), some 1, 0⟩ : Bandit).upper_bound = some 1) ∧
    ((⟨0, 1, some (-1), some 1, 0⟩ : Bandit).candidates (fun _ => 0)).length = 10 ∧
    ∃ v, (⟨0, 1, some (-1), some 1, 0⟩ : Bandit).pull (fun _ => 0) = some v ∧
      v ∈ (⟨0, 1, some (-1), some 1, 0⟩ : Bandit).candidates (fun _ => 0) ∧
      (-1 : ℝ) ≤ v ∧ v ≤ 1 := by
  have h := c9_truncated_pull (⟨0, 1, some (-1), some 1, 0⟩ : Bandit)
    (fun _ => 0) (-1) 1 rfl rfl
  have h0 : (0 : ℝ) ∈ (⟨0, 1, some (-1), some 1, 0⟩ : Bandit).candidates (fun _ => 0) := by
    simp [Bandit.candidates]
  exact ⟨rfl, rfl, h.1, h.2.2.1 ⟨0, h0, by norm_num, by norm_num⟩⟩

/-- Helper: when the constructor argument epsilon is the float 0, the
Python truthiness fallback makes the effective epsilon `1/(1+N)`, so any
uniform draw below that value takes the exploration branch. -/
theorem choose_bandit_explores_at_eps_zero (s : EpsilonGreedyAgent) (p : ℝ)
    (pick : ℕ) (he : s.epsilon = some 0)
    (hp : p < 1 / (1 + (s.rewards_log.total_actions : ℝ))) :
    EpsilonGreedyAgent._choose_bandit s p pick
      = EpsilonGreedyAgent._get_random_bandit s pick := by
  unfold EpsilonGreedyAgent._choose_bandit
  rw [he]
  dsimp only
  rw [if_pos rfl, if_pos hp]

/-- First arm of the C1 scenario (identity 0, primed with reward 1). -/
def c1b0 : Bandit := ⟨0, 1, none, none, 0⟩

/-- Second arm of the C1 scenario (identity 1, primed with reward 2). -/
def c1b1 : Bandit := ⟨0, 1, none, none, 1⟩

/-- Ledger of the C1 scenario: each arm pulled once, with distinct rewards
1 and 2, so arm `c1b1` has the strictly highest sample mean and the total
pull count is 2. -/
noncomputable def c1Log : BanditRewardsLog ℝ :=
  BanditRewardsLog.applyCalls [(c1b0, 1), (c1b1, 2)]

/-- The C1 agent: epsilon constructed as 0, bound to the two primed arms. -/
noncomputable def c1Agent : EpsilonGreedyAgent :=
  { rewards_log := c1Log, bandits? := some [c1b0, c1b1], epsilon := some 0 }

/-- C1 fails on the code: with `epsilon = 0` the expression
`self.epsilon or 1 / (1 + total_actions)` falls back to the adaptive
epsilon `1/3` (Python treats the float `0` as falsy), so the uniform draw
`p = 1/4 < 1/3` takes the exploration branch and `_choose_bandit` returns
the random arm `c1b0` — not the strictly-highest-sample-mean arm `c1b1`
that `_get_current_best_bandit` would return. -/
theorem c1_epsilon_zero_explores :
    c1Agent.epsilon = some 0 ∧
    EpsilonGreedyAgent._choose_bandit c1Agent (1 / 4) 0 = .ok c1b0 ∧
    EpsilonGreedyAgent._get_current_best_bandit c1Log [c1b0, c1b1] (by simp) = c1b1 ∧
    c1b0 ≠ c1b1 := by
  have htot : c1Log.total_actions = 2 := by
    norm_num [c1Log, BanditRewardsLog.applyCalls, BanditRewardsLog.replay,
      BanditRewardsLog.record_action, BanditRewardsLog.init]
  refine ⟨rfl, ?_, ?_, ?_⟩
  · have hrand : EpsilonGreedyAgent._get_random_bandit c1Agent 0 = .ok c1b0 := rfl
    have hp : (1 / 4 : ℝ) < 1 / (1 + (c1Agent.rewards_log.total_actions : ℝ)) := by
      rw [show c1Agent.rewards_log = c1Log from rfl, htot]
      norm_num
    rw [choose_bandit_explores_at_eps_zero c1Agent (1 / 4) 0 rfl hp, hrand]
  · have hest : EpsilonGreedyAgent.estimates c1Log [c1b0, c1b1] = [1, 2] := by
      norm_num [EpsilonGreedyAgent.estimates, c1Log, c1b0, c1b1,
        BanditRewardsLog.applyCalls, BanditRewardsLog.replay,
        BanditRewardsLog.record_action, BanditRewardsLog.init]
    have hidx : argmaxIdx (EpsilonGreedyAgent.estimates c1Log [c1b0, c1b1]) = 1 := by
      rw [hest]
      norm_num [argmaxIdx, argmaxAux]
    unfold EpsilonGreedyAgent._get_current_best_bandit
    simp only [hidx]
    rfl
  · simp [c1b0, c1b1]
